import Mathlib

/-!
# Verification of the routing-cycle detector (src/my_solution.py)

Shallow embedding of the core pipeline of `my_solution.py`:

* `process_file` (lines 145-167): parse the delimited input lines into
  per-partition adjacency structures;
* `find_longest_cycle_in_graph` / `dfs` (lines 108-142): longest simple
  cycle search by recursive backtracking DFS;
* `find_longest_routing_cycle` (lines 170-189): the cross-partition
  reduction with strict-inequality best update;
* the result-reporting tail of `main` (lines 215-226), as `reportResult`.

The download collaborator (lines 17-105) is out of the core and is not
modelled; the ingestor consumes the file as a list of lines.

Python dictionaries preserve insertion order, so both the partition map
and each graph's adjacency map are embedded as insertion-ordered
association lists.  Python strings become `String`; `str.strip` and
`str.split` are embedded below as `pyStrip` / `pySplit` over the
character list.
-/

/-- Python `str.strip()` with no argument: drop leading and trailing
whitespace characters. -/
def pyStrip (s : String) : String :=
  String.mk (((s.data.dropWhile Char.isWhitespace).reverse.dropWhile
    Char.isWhitespace).reverse)

/-- Split a character list at every occurrence of `sep` (Python
`str.split(sep)` semantics: no collapsing, `"".split(sep) == [""]`). -/
def splitOnChar (sep : Char) : List Char → List (List Char)
  | [] => [[]]
  | c :: rest =>
    match splitOnChar sep rest with
    | [] => [[]]
    | g :: gs => if c = sep then [] :: g :: gs else (c :: g) :: gs

/-- Python `s.split(sep)` for a single-character separator. -/
def pySplit (sep : Char) (s : String) : List String :=
  (splitOnChar sep s.data).map String.mk

/-- A directed graph: mapping from source node to the ordered list of its
destination nodes (`{source -> [destinations]}`, my_solution.py line 150),
as an insertion-ordered association list. -/
abbrev Graph := List (String × List String)

/-- A partition key `(claim_id, status_code)` (line 164). -/
abbrev PartKey := String × String

/-- The mapping `(claim_id, status_code) -> graph` returned by
`process_file` (line 151). -/
abbrev Graphs := List (PartKey × Graph)

/-- Dictionary lookup `graph[current]`, with `none` playing the role of
`current not in graph` (lines 125-126). -/
def adj (g : Graph) (v : String) : Option (List String) :=
  (g.find? (fun p => p.1 == v)).map Prod.snd

/-- All destination nodes of the graph, concatenated. -/
def allDests (g : Graph) : List String :=
  g.foldr (fun p acc => p.2 ++ acc) []

/-- The set of all nodes appearing in the graph (as a key or as a
destination).  The Python code computes this set at lines 116-118 (where
it is in fact never used afterwards); here it sizes the recursion fuel. -/
def nodeFinset (g : Graph) : Finset String :=
  (g.map Prod.fst).toFinset ∪ (allDests g).toFinset

/-- Fuel bound for `dfs`.  Every recursive call of the Python `dfs` adds a
previously unvisited node of the graph to `visited`, and `visited` starts
non-empty, so the recursion depth never exceeds the number of distinct
nodes; with `card + 1` fuel the `0` fuel case is never reached from
`find_longest_cycle_in_graph`. -/
def searchFuel (g : Graph) : Nat := (nodeFinset g).card + 1

/-- The recursive `dfs` of my_solution.py lines 122-135, as a pure
function: it returns the largest `path_length + 1` recorded anywhere in
the explored branch (`0` when the branch records nothing).  The Python
`nonlocal longest` accumulator only ever takes maxima, so it is recovered
by folding `max` over the per-neighbor contributions; `dfsS` below keeps
the literal mutation structure and is proved to agree.  The neighbor
check order is Python's: first `neighbor == start and path_length >= 1`
(a found cycle), else `neighbor not in visited` (recurse one edge deeper
with the neighbor added to the path), else the branch contributes
nothing. -/
def dfs (g : Graph) : Nat → String → String → List String → Nat → Nat
  | 0, _, _, _, _ => 0
  | fuel + 1, start, current, visited, pl =>
    match adj g current with
    | none => 0
    | some ns =>
      ns.foldr (fun nb acc =>
        max (if nb = start ∧ 1 ≤ pl then pl + 1
             else if nb ∉ visited then dfs g fuel start nb (nb :: visited) (pl + 1)
             else 0) acc) 0

/-- `find_longest_cycle_in_graph` (lines 108-142): empty graph returns 0;
otherwise try a DFS from every key of the graph with `visited = {start}`
and `path_length = 0`, accumulating the longest cycle length found. -/
def find_longest_cycle_in_graph (g : Graph) : Nat :=
  if g.isEmpty then 0
  else g.foldl (fun longest p =>
    max longest (dfs g (searchFuel g) p.1 p.1 [p.1] 0)) 0

/-- `graphs[key][source].append(dest)` at the inner level: append `dst` to
the destination list of `src`, creating the entry (at the end, as a Python
dict insertion does) on first occurrence. -/
def addDest (g : Graph) (src dst : String) : Graph :=
  match g with
  | [] => [(src, [dst])]
  | (s, ds) :: rest =>
    if s = src then (s, ds ++ [dst]) :: rest else (s, ds) :: addDest rest src dst

/-- `graphs[key][source].append(dest)` at the outer level: route the edge
to the graph of `key`, creating that graph's entry on first occurrence
(line 165, with both levels being `defaultdict`). -/
def addEdge (gs : Graphs) (key : PartKey) (src dst : String) : Graphs :=
  match gs with
  | [] => [(key, [(src, [dst])])]
  | (k, g) :: rest =>
    if k = key then (k, addDest g src dst) :: rest else (k, g) :: addEdge rest key src dst

/-- The per-line body of the `process_file` loop (lines 154-165): strip the
line; skip it if empty; split on `'|'`; skip it unless exactly 4 fields;
otherwise append the edge `source -> dest` to the graph of
`(claim_id, status_code)`. -/
def processLine (gs : Graphs) (line : String) : Graphs :=
  let l := pyStrip line
  if l = "" then gs
  else
    match pySplit '|' l with
    | [src, dst, claim_id, status_code] => addEdge gs (claim_id, status_code) src dst
    | _ => gs

/-- `process_file` (lines 145-167), with the file given as its list of
lines. -/
def process_file (lines : List String) : Graphs :=
  lines.foldl processLine []

/-- One step of the reduction loop of `find_longest_routing_cycle`
(lines 181-187): compute the partition's longest cycle length and replace
the running best exactly when `cycle_length > best_length`. -/
def updateBest (best : Option String × Option String × Nat)
    (p : PartKey × Graph) : Option String × Option String × Nat :=
  if best.2.2 < find_longest_cycle_in_graph p.2 then
    (some p.1.1, some p.1.2, find_longest_cycle_in_graph p.2)
  else best

/-- `find_longest_routing_cycle` (lines 170-189): fold `updateBest` over
the partitions in the mapping's iteration order, starting from
`(None, None, 0)`. -/
def find_longest_routing_cycle (lines : List String) :
    Option String × Option String × Nat :=
  (process_file lines).foldl updateBest (none, none, 0)

/-- Observable outcome of the reporting tail of `main` (lines 215-226):
the stdout result line if any, the stderr message if any, and the exit
code. -/
structure RunOutcome where
  resultLine : Option String
  errMsg : Option String
  exitCode : Nat
  deriving DecidableEq

/-- Python f-string interpolation of a possibly-`None` value. -/
def pyFStr : Option String → String
  | some s => s
  | none => "None"

/-- Lines 217-222 of `main`: when `claim_id is not None` print the line
`f"{claim_id},{status_code},{cycle_length}"` and exit 0; otherwise print
`"No cycles found"` to stderr and exit 1. -/
def reportResult (r : Option String × Option String × Nat) : RunOutcome :=
  match r with
  | (some claim_id, status_code, cycle_length) =>
    { resultLine := some (claim_id ++ "," ++ pyFStr status_code ++ "," ++
        toString cycle_length),
      errMsg := none, exitCode := 0 }
  | (none, _, _) =>
    { resultLine := none, errMsg := some "No cycles found", exitCode := 1 }

/-- The mutable state visible to the Python `dfs`: the graph it indexes
into, the `visited` set (a list without duplicates along real runs, used
with set semantics), and the `nonlocal longest` accumulator. -/
structure SearchState where
  graph : Graph
  visited : List String
  longest : Nat
  deriving DecidableEq

/-- Stateful embedding of `dfs` (lines 122-135) keeping the literal
mutation structure of the Python: `longest = max(longest, path_length+1)`
on a found cycle, and `visited.add(neighbor)` / recurse /
`visited.remove(neighbor)` (set removal embedded as `List.erase`) on an
unvisited neighbor.  The graph is threaded through the state so that
non-mutation is a provable statement rather than a modelling assumption. -/
def dfsS : Nat → String → String → Nat → SearchState → SearchState
  | 0, _, _, _, st => st
  | fuel + 1, start, current, pl, st =>
    match adj st.graph current with
    | none => st
    | some ns =>
      ns.foldl (fun s nb =>
        if nb = start ∧ 1 ≤ pl then
          { s with longest := max s.longest (pl + 1) }
        else if nb ∉ s.visited then
          let s₁ := dfsS fuel start nb (pl + 1) { s with visited := nb :: s.visited }
          { s₁ with visited := s₁.visited.erase nb }
        else s) st

/-- Stateful embedding of the start-node loop of
`find_longest_cycle_in_graph` (lines 137-140): for each key of the graph,
reset `visited = {start_node}` and run `dfs(start_node, start_node,
visited, 0)` against the shared state. -/
def searchS (g : Graph) : SearchState :=
  g.foldl (fun st p => dfsS (searchFuel g) p.1 p.1 0 { st with visited := [p.1] })
    { graph := g, visited := [], longest := 0 }

/-- Specification-side edge test: the graph has an edge `u -> v`. -/
def hasEdgeB (g : Graph) (u v : String) : Bool :=
  match adj g u with
  | some l => l.contains v
  | none => false

/-- Specification-side simple cycle (spec section 3): a non-empty list of
pairwise-distinct nodes such that each node has an edge to the next,
cyclically; its length (edge count) is the list length, so a single
self-loop `[A]` is a simple cycle of length 1. -/
def isSpecCycle (g : Graph) (c : List String) : Bool :=
  !c.isEmpty && decide c.Nodup &&
    (c.zip (c.rotate 1)).all (fun e => hasEdgeB g e.1 e.2)

/-- Invariant of the running best of `find_longest_routing_cycle`: either
still the initial `(None, None, 0)`, or a real winner with length at
least 1. -/
def goodBest (b : Option String × Option String × Nat) : Prop :=
  (b.1 = none ∧ b.2.1 = none ∧ b.2.2 = 0) ∨
  ∃ c s, b.1 = some c ∧ b.2.1 = some s ∧ 1 ≤ b.2.2

/-- The partition key a line contributes, if it is valid (non-blank after
strip and exactly four fields). -/
def lineKey (line : String) : Option PartKey :=
  if pyStrip line = "" then none
  else
    match pySplit '|' (pyStrip line) with
    | [_, _, claim_id, status_code] => some (claim_id, status_code)
    | _ => none

/-- Two graphs with the same keys in the same order whose destination
lists agree as sets (same membership, duplicates and order ignored). -/
def SameShape (g g' : Graph) : Prop :=
  List.Forall₂ (fun p q => p.1 = q.1 ∧ ∀ x, x ∈ p.2 ↔ x ∈ q.2) g g'

/-- Two graphs with the same keys in the same order whose destination
lists are permutations of each other. -/
def DestPerm (g g' : Graph) : Prop :=
  List.Forall₂ (fun p q => p.1 = q.1 ∧ p.2.Perm q.2) g g'

/-!  ## Helper lemmas -/

lemma sameShape_keys {g g' : Graph} (h : SameShape g g') :
    g.map Prod.fst = g'.map Prod.fst := by
  induction h with
  | nil => rfl
  | cons hpq _ ih => simp only [List.map_cons, hpq.1, ih]

lemma sameShape_adj {g g' : Graph} (h : SameShape g g') (v : String) :
    (adj g v = none ∧ adj g' v = none) ∨
    ∃ l l', adj g v = some l ∧ adj g' v = some l' ∧ ∀ x, x ∈ l ↔ x ∈ l' := by
  induction h with
  | nil => exact Or.inl ⟨rfl, rfl⟩
  | @cons p q gs gs' hpq htail ih =>
    by_cases hv : p.1 = v
    · have hqv : q.1 = v := by rw [← hpq.1]; exact hv
      refine Or.inr ⟨p.2, q.2, ?_, ?_, hpq.2⟩
      · simp [adj, List.find?_cons_of_pos, hv]
      · simp [adj, List.find?_cons_of_pos, hqv]
    · have hv' : ¬ q.1 = v := fun hc => hv (hpq.1 ▸ hc)
      rcases ih with ⟨h1, h2⟩ | ⟨l, l', h1, h2, hmem⟩
      · refine Or.inl ⟨?_, ?_⟩
        · simpa [adj, List.find?_cons_of_neg, hv] using h1
        · simpa [adj, List.find?_cons_of_neg, hv'] using h2
      · refine Or.inr ⟨l, l', ?_, ?_, hmem⟩
        · simpa [adj, List.find?_cons_of_neg, hv] using h1
        · simpa [adj, List.find?_cons_of_neg, hv'] using h2

lemma mem_allDests {g : Graph} {x : String} :
    x ∈ allDests g ↔ ∃ p ∈ g, x ∈ p.2 := by
  induction g with
  | nil => simp [allDests]
  | cons p gs ih =>
    show x ∈ p.2 ++ allDests gs ↔ _
    simp [List.mem_append, ih]

lemma sameShape_dests_mem {g g' : Graph} (h : SameShape g g') (x : String) :
    (∃ p ∈ g, x ∈ p.2) ↔ ∃ q ∈ g', x ∈ q.2 := by
  induction h with
  | nil => simp
  | @cons p q gs gs' hpq htail ih =>
    simp only [List.mem_cons]
    constructor
    · rintro ⟨p', rfl | hp', hx⟩
      · exact ⟨q, Or.inl rfl, (hpq.2 x).mp hx⟩
      · obtain ⟨q', hq', hx'⟩ := ih.mp ⟨p', hp', hx⟩
        exact ⟨q', Or.inr hq', hx'⟩
    · rintro ⟨q', rfl | hq', hx⟩
      · exact ⟨p, Or.inl rfl, (hpq.2 x).mpr hx⟩
      · obtain ⟨p', hp', hx'⟩ := ih.mpr ⟨q', hq', hx⟩
        exact ⟨p', Or.inr hp', hx'⟩

lemma sameShape_nodeFinset {g g' : Graph} (h : SameShape g g') :
    nodeFinset g = nodeFinset g' := by
  unfold nodeFinset
  rw [sameShape_keys h]
  congr 1
  ext x
  simp only [List.mem_toFinset, mem_allDests]
  exact sameShape_dests_mem h x

lemma sameShape_searchFuel {g g' : Graph} (h : SameShape g g') :
    searchFuel g = searchFuel g' := by
  unfold searchFuel
  rw [sameShape_nodeFinset h]

lemma foldr_max_eq_sup (f : String → Nat) (l : List String) :
    l.foldr (fun a acc => max (f a) acc) 0 = l.toFinset.sup f := by
  induction l with
  | nil => simp
  | cons a l ih => simp [List.toFinset_cons, Finset.sup_insert, ih]

lemma sameShape_dfs {g g' : Graph} (h : SameShape g g') (fuel : Nat) (start : String) :
    ∀ (current : String) (visited : List String) (pl : Nat),
    dfs g fuel start current visited pl = dfs g' fuel start current visited pl := by
  induction fuel with
  | zero => intro current visited pl; rfl
  | succ fuel ih =>
    intro current visited pl
    rcases sameShape_adj h current with ⟨h1, h2⟩ | ⟨l, l', h1, h2, hmem⟩
    · simp [dfs, h1, h2]
    · simp only [dfs, h1, h2]
      rw [foldr_max_eq_sup, foldr_max_eq_sup]
      have htf : l.toFinset = l'.toFinset := by
        ext x
        simp only [List.mem_toFinset]
        exact hmem x
      rw [htf]
      apply Finset.sup_congr rfl
      intro x _
      by_cases hx1 : x = start ∧ 1 ≤ pl
      · rw [if_pos hx1, if_pos hx1]
      · rw [if_neg hx1, if_neg hx1]
        by_cases hx2 : x ∈ visited
        · rw [if_neg (not_not_intro hx2), if_neg (not_not_intro hx2)]
        · rw [if_pos hx2, if_pos hx2]
          exact ih x (x :: visited) (pl + 1)

/-- `find_longest_cycle_in_graph` as a bare fold (the empty-graph guard
is redundant: the fold over no keys is 0). -/
lemma find_eq_foldl (g : Graph) :
    find_longest_cycle_in_graph g =
      g.foldl (fun longest p =>
        max longest (dfs g (searchFuel g) p.1 p.1 [p.1] 0)) 0 := by
  cases g with
  | nil => rfl
  | cons p rest => rfl

lemma sameShape_find {g g' : Graph} (h : SameShape g g') :
    find_longest_cycle_in_graph g = find_longest_cycle_in_graph g' := by
  rw [find_eq_foldl, find_eq_foldl]
  have hk := sameShape_keys h
  have hf := sameShape_searchFuel h
  calc g.foldl (fun longest p =>
          max longest (dfs g (searchFuel g) p.1 p.1 [p.1] 0)) 0
      = (g.map Prod.fst).foldl (fun longest k =>
          max longest (dfs g (searchFuel g) k k [k] 0)) 0 := by
        simp only [List.foldl_map]
    _ = (g'.map Prod.fst).foldl (fun longest k =>
          max longest (dfs g' (searchFuel g') k k [k] 0)) 0 := by
        rw [hk, hf]
        congr 1
        funext longest k
        rw [sameShape_dfs h]
    _ = g'.foldl (fun longest p =>
          max longest (dfs g' (searchFuel g') p.1 p.1 [p.1] 0)) 0 := by
        simp only [List.foldl_map]

lemma updateBest_le (best : Option String × Option String × Nat)
    (p : PartKey × Graph) : best.2.2 ≤ (updateBest best p).2.2 := by
  unfold updateBest
  split
  · exact le_of_lt (by assumption)
  · exact le_refl _

lemma goodBest_updateBest (b : Option String × Option String × Nat)
    (p : PartKey × Graph) (h : goodBest b) : goodBest (updateBest b p) := by
  unfold updateBest
  split
  · exact Or.inr ⟨p.1.1, p.1.2, rfl, rfl, Nat.lt_of_le_of_lt (Nat.zero_le _)
      (by assumption)⟩
  · exact h

lemma goodBest_foldl (ps : List (PartKey × Graph)) :
    ∀ b, goodBest b → goodBest (ps.foldl updateBest b) := by
  induction ps with
  | nil => exact fun b h => h
  | cons p ps ih => exact fun b h => ih _ (goodBest_updateBest b p h)

lemma reportResult_of_goodBest (r : Option String × Option String × Nat)
    (hgood : goodBest r) :
    (r.1 = none ↔ r.2.2 = 0) ∧
    (r.1 = none → reportResult r =
      { resultLine := none, errMsg := some "No cycles found", exitCode := 1 }) ∧
    (∀ c, r.1 = some c → ∃ s, r.2.1 = some s ∧ 1 ≤ r.2.2 ∧
      reportResult r =
        { resultLine := some (c ++ "," ++ s ++ "," ++ toString r.2.2),
          errMsg := none, exitCode := 0 }) := by
  obtain ⟨copt, sopt, n⟩ := r
  obtain ⟨hc, hs, hn⟩ | ⟨c, s, hc, hs, hn⟩ := hgood
  · simp only [] at hc hs hn
    subst hc
    subst hs
    subst hn
    exact ⟨⟨fun _ => rfl, fun _ => rfl⟩, fun _ => rfl, fun c hc => by simp at hc⟩
  · simp only [] at hc hs hn
    subst hc
    subst hs
    refine ⟨⟨fun h => by simp at h, fun h => absurd hn (by simp only [] at h; omega)⟩,
      fun h => by simp at h, fun c' hc' => ?_⟩
    simp only [] at hc'
    rw [Option.some_inj] at hc'
    subst hc'
    exact ⟨s, rfl, hn, rfl⟩

lemma addEdge_keys (gs : Graphs) (key : PartKey) (src dst : String)
    (k : PartKey) :
    k ∈ (addEdge gs key src dst).map Prod.fst ↔
      k ∈ gs.map Prod.fst ∨ k = key := by
  induction gs with
  | nil => simp [addEdge]
  | cons p rest ih =>
    obtain ⟨k0, g0⟩ := p
    simp only [addEdge]
    split
    · rename_i hk0
      subst hk0
      simp only [List.map_cons, List.mem_cons]
      tauto
    · simp only [List.map_cons, List.mem_cons, ih]
      tauto

lemma processLine_keys (gs : Graphs) (line : String) (k : PartKey) :
    k ∈ (processLine gs line).map Prod.fst ↔
      k ∈ gs.map Prod.fst ∨ lineKey line = some k := by
  by_cases hs : pyStrip line = ""
  · simp [processLine, lineKey, hs]
  · rcases hsp : pySplit '|' (pyStrip line) with _ | ⟨a, _ | ⟨b, _ | ⟨c, _ |
      ⟨d, _ | ⟨e, tail⟩⟩⟩⟩⟩
    · simp [processLine, lineKey, hs, hsp]
    · simp [processLine, lineKey, hs, hsp]
    · simp [processLine, lineKey, hs, hsp]
    · simp [processLine, lineKey, hs, hsp]
    · have h1 : processLine gs line = addEdge gs (c, d) a b := by
        simp [processLine, hs, hsp]
      have h2 : lineKey line = some (c, d) := by
        simp [lineKey, hs, hsp]
      rw [h1, h2, addEdge_keys]
      constructor
      · rintro (h | h)
        · exact Or.inl h
        · exact Or.inr (by rw [h])
      · rintro (h | h)
        · exact Or.inl h
        · exact Or.inr (Option.some_inj.mp h).symm
    · simp [processLine, lineKey, hs, hsp]

lemma foldl_processLine_keys (lines : List String) :
    ∀ (gs : Graphs) (k : PartKey),
    k ∈ (lines.foldl processLine gs).map Prod.fst ↔
      k ∈ gs.map Prod.fst ∨ ∃ line ∈ lines, lineKey line = some k := by
  induction lines with
  | nil => simp
  | cons line rest ih =>
    intro gs k
    simp only [List.foldl_cons]
    rw [ih, processLine_keys]
    constructor
    · rintro ((hgs | hline) | ⟨l, hl, hk⟩)
      · exact Or.inl hgs
      · exact Or.inr ⟨line, List.mem_cons_self line rest, hline⟩
      · exact Or.inr ⟨l, List.mem_cons_of_mem _ hl, hk⟩
    · rintro (hgs | ⟨l, hl, hk⟩)
      · exact Or.inl (Or.inl hgs)
      · rcases List.mem_cons.mp hl with rfl | hl'
        · exact Or.inl (Or.inr hk)
        · exact Or.inr ⟨l, hl', hk⟩

/-- The stateful DFS is the pure DFS: it leaves the graph and the visited
set exactly as it found them, and only raises `longest` by taking the max
with the pure `dfs` value. -/
lemma dfsS_spec (fuel : Nat) (start : String) :
    ∀ (current : String) (pl : Nat) (st : SearchState),
    dfsS fuel start current pl st =
      { graph := st.graph, visited := st.visited,
        longest := max st.longest (dfs st.graph fuel start current st.visited pl) } := by
  induction fuel with
  | zero => intro current pl st; simp [dfsS, dfs]
  | succ fuel ih =>
    intro current pl st
    cases hadj : adj st.graph current with
    | none => simp [dfsS, dfs, hadj]
    | some ns =>
      simp only [dfsS, dfs, hadj]
      clear hadj
      induction ns generalizing st with
      | nil => simp
      | cons nb rest ihr =>
        simp only [List.foldl_cons, List.foldr_cons]
        by_cases h1 : nb = start ∧ 1 ≤ pl
        · rw [if_pos h1, if_pos h1, ihr]
          simp [max_assoc, sup_assoc]
        · rw [if_neg h1, if_neg h1]
          by_cases h2 : nb ∈ st.visited
          · rw [if_neg (not_not_intro h2), if_neg (not_not_intro h2), ihr]
            simp
          · rw [if_pos h2, if_pos h2, ih]
            simp only [List.erase_cons_head]
            rw [ihr]
            simp [max_assoc, sup_assoc]

lemma searchS_foldl (g : Graph) (l : List (String × List String)) :
    ∀ st : SearchState, st.graph = g →
    (l.foldl (fun st p =>
        dfsS (searchFuel g) p.1 p.1 0 { st with visited := [p.1] }) st).graph = g ∧
    (l.foldl (fun st p =>
        dfsS (searchFuel g) p.1 p.1 0 { st with visited := [p.1] }) st).longest =
      l.foldl (fun longest p =>
        max longest (dfs g (searchFuel g) p.1 p.1 [p.1] 0)) st.longest := by
  induction l with
  | nil => exact fun st h => ⟨h, rfl⟩
  | cons p rest ihl =>
    intro st h
    simp only [List.foldl_cons]
    rw [dfsS_spec]
    dsimp only
    rw [h]
    apply ihl
    rfl

/-!  ## Claims -/

/-- C1: the spec claims a graph with a self-loop edge yields a cycle of
length 1 for that node, and that the single self-loop graph `A -> A`
yields longest-cycle length exactly 1.  The code disagrees: with
`visited = {start}` and `path_length = 0`, the self-loop neighbor equals
`start` but fails `path_length >= 1`, and the `elif neighbor not in
visited` branch is blocked because `start` is already visited, so the
cycle is never recorded: `find_longest_cycle_in_graph` returns 0 on the
single self-loop graph, even though `["A"]` is a simple cycle of length 1
of that graph in the spec's sense. -/
theorem selfLoop_detection_diverges :
    find_longest_cycle_in_graph [("A", ["A"])] = 0 ∧
    isSpecCycle [("A", ["A"])] ["A"] = true := by
  constructor
  · decide
  · decide

/-- C2: the spec contract says the per-graph search returns the maximum
length over all simple cycles (0 when there is none).  The acyclic cases
hold: the empty graph and the chain `A -> B -> C` both return 0.  But the
contract fails on self-loops: the graph `A -> B, B -> B` has the simple
cycle `["B"]` of length 1 (so the contract requires 1), yet the code
returns 0 — the same `path_length >= 1` guard that breaks C1. -/
theorem longest_cycle_contract_diverges :
    find_longest_cycle_in_graph [] = 0 ∧
    find_longest_cycle_in_graph [("A", ["B"]), ("B", ["C"])] = 0 ∧
    find_longest_cycle_in_graph [("A", ["B"]), ("B", ["B"])] = 0 ∧
    isSpecCycle [("A", ["B"]), ("B", ["B"])] ["B"] = true := by
  refine ⟨by decide, by decide, by decide, by decide⟩

/-- C3: on the four-line input `A|B|C1|S1, B|C|C1|S1, C|A|C1|S1,
X|Y|C2|S2`, the pipeline returns claim id C1, status code S1 and cycle
length 3, and the program emits the result line `C1,S1,3` on stdout with
exit code 0. -/
theorem roundtrip_c1_s1_3 :
    find_longest_routing_cycle
      ["A|B|C1|S1", "B|C|C1|S1", "C|A|C1|S1", "X|Y|C2|S2"] =
      (some "C1", some "S1", 3) ∧
    reportResult (find_longest_routing_cycle
      ["A|B|C1|S1", "B|C|C1|S1", "C|A|C1|S1", "X|Y|C2|S2"]) =
      { resultLine := some "C1,S1,3", errMsg := none, exitCode := 0 } := by
  refine ⟨by decide, by decide⟩

/-- C4: along the reduction loop of `find_longest_routing_cycle`, the
recorded best length is monotonically non-decreasing (folding any list of
partitions can only raise it), the best is changed only on a strictly
greater cycle length, and a partition whose cycle length is at most the
recorded best (in particular, equal to it) leaves the recorded winner
unchanged — ties favor the first partition reaching the maximum. -/
theorem best_update_monotone_first_wins
    (best : Option String × Option String × Nat)
    (ps : List (PartKey × Graph)) (p : PartKey × Graph) :
    best.2.2 ≤ (ps.foldl updateBest best).2.2 ∧
    (updateBest best p = best ∨ best.2.2 < find_longest_cycle_in_graph p.2) ∧
    (find_longest_cycle_in_graph p.2 ≤ best.2.2 → updateBest best p = best) := by
  refine ⟨?_, ?_, ?_⟩
  · induction ps generalizing best with
    | nil => exact le_refl _
    | cons q qs ih =>
      exact le_trans (updateBest_le best q) (ih (updateBest best q))
  · unfold updateBest
    split
    · exact Or.inr (by assumption)
    · exact Or.inl rfl
  · intro h
    unfold updateBest
    split
    · exact absurd (by assumption) (not_lt.mpr h)
    · rfl

/-- Witness for C4 at a concrete input: a later partition whose graph has
cycle length 2, equal to the recorded best 2, does not overwrite the
recorded `(C1, S1)` winner. -/
theorem best_update_monotone_first_wins_witness :
    updateBest (some "C1", some "S1", 2)
      (("C2", "S2"), [("A", ["B"]), ("B", ["A"])]) =
      (some "C1", some "S1", 2) :=
  (best_update_monotone_first_wins (some "C1", some "S1", 2) []
    (("C2", "S2"), [("A", ["B"]), ("B", ["A"])])).2.2 (by decide)

/-- C6: the one-partition graph with edges `A -> B, B -> A, B -> C,
C -> B` has overlapping cycles `A-B-A` and `B-C-B`; the search reports
the longest simple cycle only, length 2, not any longer non-simple
traversal. -/
theorem overlapping_cycles_longest_simple :
    find_longest_cycle_in_graph
      [("A", ["B"]), ("B", ["A", "C"]), ("C", ["B"])] = 2 := by
  decide

/-- C8: for every input, when `find_longest_routing_cycle` reports no
claim id (`None`), the best length is 0 and the program writes `"No
cycles found"` to stderr, exits 1 and emits no result line; when it
reports a claim id, a status code is present too, the best length is at
least 1 (so a result line never carries cycle length 0), and exactly the
result line `claim_id,status_code,length` is emitted with exit code 0. -/
theorem absent_result_reporting (lines : List String) :
    ((find_longest_routing_cycle lines).1 = none ↔
      (find_longest_routing_cycle lines).2.2 = 0) ∧
    ((find_longest_routing_cycle lines).1 = none →
      reportResult (find_longest_routing_cycle lines) =
        { resultLine := none, errMsg := some "No cycles found", exitCode := 1 }) ∧
    (∀ c, (find_longest_routing_cycle lines).1 = some c →
      ∃ s, (find_longest_routing_cycle lines).2.1 = some s ∧
        1 ≤ (find_longest_routing_cycle lines).2.2 ∧
        reportResult (find_longest_routing_cycle lines) =
          { resultLine := some (c ++ "," ++ s ++ "," ++
              toString (find_longest_routing_cycle lines).2.2),
            errMsg := none, exitCode := 0 }) :=
  reportResult_of_goodBest _
    (goodBest_foldl (process_file lines) _ (Or.inl ⟨rfl, rfl, rfl⟩))

/-- Witness for C8 at a concrete input: a file whose only partition is
acyclic yields no result line, the stderr message and exit code 1. -/
theorem absent_result_reporting_witness :
    reportResult (find_longest_routing_cycle ["A|B|C1|S1"]) =
      { resultLine := none, errMsg := some "No cycles found", exitCode := 1 } :=
  (absent_result_reporting ["A|B|C1|S1"]).2.1 (by decide)

/-- C9: the search never mutates its input graph, and the visited set is
restored after every recursive call.  Stated on the stateful embedding
`dfsS` / `searchS`, which threads the Python mutable state (graph,
visited, longest) explicitly: any `dfsS` call returns the graph and the
visited set exactly as it received them, the whole search returns the
graph it was given, and its `longest` accumulator ends at the value of
the pure `find_longest_cycle_in_graph`. -/
theorem search_mutates_nothing (g : Graph) (fuel : Nat)
    (start current : String) (pl : Nat) (st : SearchState) :
    (dfsS fuel start current pl st).graph = st.graph ∧
    (dfsS fuel start current pl st).visited = st.visited ∧
    (searchS g).graph = g ∧
    (searchS g).longest = find_longest_cycle_in_graph g := by
  refine ⟨by rw [dfsS_spec], by rw [dfsS_spec], ?_, ?_⟩
  · exact (searchS_foldl g g { graph := g, visited := [], longest := 0 } rfl).1
  · rw [find_eq_foldl]
    exact (searchS_foldl g g { graph := g, visited := [], longest := 0 } rfl).2

/-- C7: the value of `find_longest_cycle_in_graph` is unchanged under any
permutation of each source node's destination list: insertion order of
destinations determines search order only, never the computed
longest-cycle length. -/
theorem dest_order_irrelevant (g g' : Graph) (h : DestPerm g g') :
    find_longest_cycle_in_graph g = find_longest_cycle_in_graph g' :=
  sameShape_find
    (List.Forall₂.imp (fun _ _ hab => ⟨hab.1, fun _ => hab.2.mem_iff⟩) h)

/-- Witness for C7 at a concrete input: swapping the order of node A's
destinations does not change the longest-cycle length. -/
theorem dest_order_irrelevant_witness :
    find_longest_cycle_in_graph [("A", ["B", "C"]), ("B", ["A"]), ("C", ["A"])] =
    find_longest_cycle_in_graph [("A", ["C", "B"]), ("B", ["A"]), ("C", ["A"])] :=
  dest_order_irrelevant _ _
    (List.Forall₂.cons ⟨rfl, by decide⟩
      (List.Forall₂.cons ⟨rfl, by decide⟩
        (List.Forall₂.cons ⟨rfl, by decide⟩ List.Forall₂.nil)))

/-- C10: appending a duplicate of an edge already present in a graph (a
parallel edge) never changes the value of `find_longest_cycle_in_graph`:
duplicates are kept in the destination lists as distinct traversal
options, but the computed longest simple cycle length is invariant under
duplicating an existing edge. -/
theorem duplicate_edge_irrelevant (g₁ g₂ : Graph) (k : String)
    (l : List String) (d : String) (hd : d ∈ l) :
    find_longest_cycle_in_graph (g₁ ++ (k, l) :: g₂) =
    find_longest_cycle_in_graph (g₁ ++ (k, l ++ [d]) :: g₂) := by
  apply sameShape_find
  apply List.rel_append
  · exact List.forall₂_same.mpr fun p _ => ⟨rfl, fun x => Iff.rfl⟩
  · refine List.Forall₂.cons ⟨rfl, fun x => ⟨fun hx => List.mem_append_left _ hx,
      fun hx => ?_⟩⟩ (List.forall₂_same.mpr fun p _ => ⟨rfl, fun x => Iff.rfl⟩)
    rcases List.mem_append.mp hx with hx' | hx'
    · exact hx'
    · rw [List.mem_singleton.mp hx']
      exact hd

/-- Witness for C10 at a concrete input: duplicating the existing edge
`A -> B` leaves the longest-cycle length unchanged. -/
theorem duplicate_edge_irrelevant_witness :
    find_longest_cycle_in_graph [("A", ["B"]), ("B", ["A"])] =
    find_longest_cycle_in_graph [("A", ["B", "B"]), ("B", ["A"])] :=
  duplicate_edge_irrelevant [] [("B", ["A"])] "A" ["B"] "B" (by decide)

/-- C5: parsing semantics of `process_file`.  A line that is empty after
stripping changes nothing; a line that does not split on the bar
delimiter into exactly four fields changes nothing; a line splitting into
exactly the four fields source, destination, claim id, status code
appends the edge source -> destination to the graph keyed by
`(claim_id, status_code)` via `addEdge` (which creates the entry on first
occurrence); and the partition keys of the returned mapping are exactly
the keys of the valid lines. -/
theorem process_file_parsing :
    (∀ (gs : Graphs) (line : String),
      pyStrip line = "" → processLine gs line = gs) ∧
    (∀ (gs : Graphs) (line : String),
      (pySplit '|' (pyStrip line)).length ≠ 4 → processLine gs line = gs) ∧
    (∀ (gs : Graphs) (line src dst claim_id status_code : String),
      pySplit '|' (pyStrip line) = [src, dst, claim_id, status_code] →
      pyStrip line ≠ "" →
      processLine gs line = addEdge gs (claim_id, status_code) src dst) ∧
    (∀ (lines : List String) (k : PartKey),
      k ∈ (process_file lines).map Prod.fst ↔
        ∃ line ∈ lines, lineKey line = some k) := by
  refine ⟨?_, ?_, ?_, ?_⟩
  · intro gs line h
    simp [processLine, h]
  · intro gs line h
    by_cases hs : pyStrip line = ""
    · simp [processLine, hs]
    · rcases hsp : pySplit '|' (pyStrip line) with _ | ⟨a, _ | ⟨b, _ | ⟨c, _ |
        ⟨d, _ | ⟨e, tail⟩⟩⟩⟩⟩
      · simp [processLine, hs, hsp]
      · simp [processLine, hs, hsp]
      · simp [processLine, hs, hsp]
      · simp [processLine, hs, hsp]
      · exact absurd (by rw [hsp]; rfl) h
      · simp [processLine, hs, hsp]
  · intro gs line src dst claim_id status_code hsp hs
    simp [processLine, hs, hsp]
  · intro lines k
    simpa using foldl_processLine_keys lines [] k

/-- Witness for C5 at a concrete input: the line `" A|B|C1|S1 "` (with
surrounding whitespace) is trimmed, split into four fields, and appends
the edge A -> B to the graph keyed by (C1, S1). -/
theorem process_file_parsing_witness :
    processLine [] " A|B|C1|S1 " = addEdge [] ("C1", "S1") "A" "B" :=
  process_file_parsing.2.2.1 [] " A|B|C1|S1 " "A" "B" "C1" "S1"
    (by decide) (by decide)
